import Mathlib

/-!
Shallow embedding of the PPG signal-processing pipeline of
src/SustainLabs-main/src/App.tsx (heart-rate / SpO2 monitor), together with
proofs settling the frozen claims about it.

Conventions of the embedding:
* JavaScript numbers are modelled as exact rationals (ℚ); `Math.round` is
  Mathlib's `round` (both are floor(x + 1/2)); `Math.floor` is `Int.floor`.
* `Math.sqrt` is irrational in general, so it cannot be a ℚ value.  Where the
  source only COMPARES against an expression containing `Math.sqrt`
  (the adaptive peak threshold), the comparison is encoded exactly in ℚ by
  squaring; the theorem `exceedsAdaptiveThreshold_iff` proves the encoding
  equivalent to the real-number formula with `Real.sqrt`.  Where the square
  root flows into a returned value (the coefficient of variation inside
  `calculateSignalQuality`), the function takes the square-root function as an
  explicit parameter `sq`, and theorems quantify over it.
* ℚ division by zero yields 0 where JavaScript yields ±Infinity/NaN.  Each
  place where this matters is noted at the definition; in every theorem below
  either the divisor is provably nonzero, or the observable result coincides
  with the JavaScript result (see `refinePeakLocation`).
* For `removeBaselineWander` the JavaScript NaN/undefined semantics is
  decisive (the source reads fractional array indices), so that function is
  embedded with values in `Option ℚ`, `none` standing for NaN.
-/

namespace SustainLabs

/-- `MAX_HEARTRATE` of App.tsx line 635. -/
def MAX_HEARTRATE : ℤ := 220

/-- `MIN_HEARTRATE` of App.tsx line 636. -/
def MIN_HEARTRATE : ℤ := 40

/-- `data.reduce((sum, val) => sum + val, 0)` on a rational list. -/
def sumQ (data : List ℚ) : ℚ := data.foldl (· + ·) 0

/-- `measurements.reduce((sum, val) => sum + val, 0)` on an integer list. -/
def sumZ (data : List ℤ) : ℤ := data.foldl (· + ·) 0

/-- The mean used by `enhancedPeakDetection` (App.tsx line 1352). -/
def mean (data : List ℚ) : ℚ := sumQ data / data.length

/-- The population variance used by `enhancedPeakDetection` (line 1353). -/
def variance (data : List ℚ) : ℚ :=
  sumQ (data.map fun val => (val - mean data) ^ 2) / data.length

/-- `Math.min(...data)` for a nonempty list (the sources guard emptiness;
the value on `[]` is irrelevant and fixed to 0). -/
def listMin : List ℚ → ℚ
  | [] => 0
  | x :: xs => xs.foldl min x

/-- `Math.max(...data)` for a nonempty list. -/
def listMax : List ℚ → ℚ
  | [] => 0
  | x :: xs => xs.foldl max x

/-- `verifyHumanFingerprint` (App.tsx lines 662–679): the liveness classifier.
`blueVal || 1` is JavaScript truthiness: blue = 0 is replaced by 1. -/
def verifyHumanFingerprint (redVal greenVal blueVal : ℚ) : Bool :=
  let isRedDominant := decide (greenVal < redVal) && decide (blueVal < redVal)
  let isGreenSecondary := decide (blueVal < greenVal)
  let redToBlueRatio := redVal / (if blueVal = 0 then 1 else blueVal)
  let hasExpectedColorProfile := decide ((13/10 : ℚ) < redToBlueRatio)
  isRedDominant && isGreenSecondary && hasExpectedColorProfile

/-- `normalizeSignal` (App.tsx lines 1335–1344): min-max rescale to [10, 90],
constant input mapped to 50. -/
def normalizeSignal (data : List ℚ) : List ℚ :=
  if data.length = 0 then data
  else
    let mn := listMin data
    let mx := listMax data
    if mx = mn then data.map fun _ => 50
    else data.map fun val => (val - mn) / (mx - mn) * 80 + 10

/-- `refinePeakLocation` (App.tsx lines 1390–1408): parabolic sub-sample peak
refinement.  In JavaScript a zero denominator makes `offset` ±Infinity or NaN,
which fails `Math.abs(offset) < 1` and returns `peakIndex`; in ℚ the division
yields 0, which passes the guard and returns `peakIndex + 0 = peakIndex` — the
same observable value, as `refinePeakLocation_spec` makes explicit. -/
def refinePeakLocation (data : List ℚ) (peakIndex : ℕ) : ℚ :=
  if peakIndex = 0 ∨ data.length - 1 ≤ peakIndex then (peakIndex : ℚ)
  else
    let y1 := data.getD (peakIndex - 1) 0
    let y2 := data.getD peakIndex 0
    let y3 := data.getD (peakIndex + 1) 0
    let offset := (y1 - y3) / (2 * (y1 - 2 * y2 + y3))
    if |offset| < 1 then (peakIndex : ℚ) + offset else (peakIndex : ℚ)

/-- The comparison `x > adaptiveThreshold` of `enhancedPeakDetection`
(App.tsx lines 1352–1359), where
`adaptiveThreshold = mean + (1.5 + min(1, stdDev/20)) * stdDev` and
`stdDev = Math.sqrt(variance)`.  Encoded exactly over ℚ by squaring
(`stdDev ≤ 20` iff `variance ≤ 400`); `exceedsAdaptiveThreshold_iff` proves
this encoding equivalent to the source formula over ℝ. -/
def exceedsAdaptiveThreshold (x m v : ℚ) : Bool :=
  if v ≤ 400 then
    decide (0 < x - m - v / 20) && decide (9/4 * v < (x - m - v / 20) ^ 2)
  else
    decide (0 < x - m) && decide (25/4 * v < (x - m) ^ 2)

/-- The candidate test of the loop body of `enhancedPeakDetection`
(lines 1366–1371): strictly above the adaptive threshold and a strict
5-point local maximum. -/
def isPeakCandidate (data : List ℚ) (m v : ℚ) (i : ℕ) : Bool :=
  exceedsAdaptiveThreshold (data.getD i 0) m v
  && decide (data.getD (i-1) 0 < data.getD i 0)
  && decide (data.getD (i-2) 0 < data.getD i 0)
  && decide (data.getD (i+1) 0 < data.getD i 0)
  && decide (data.getD (i+2) 0 < data.getD i 0)

/-- `peaks.some(peakIndex => Math.abs(i - peakIndex) < minPeakDistance)`
with `minPeakDistance = 8` (lines 1363, 1374–1376). -/
def tooClose (peaks : List ℚ) (i : ℕ) : Bool :=
  peaks.any fun peakIndex => decide (|(i : ℚ) - peakIndex| < 8)

/-- One iteration of the peak-scan loop of `enhancedPeakDetection`
(lines 1366–1384). -/
def peakStep (data : List ℚ) (m v : ℚ) (peaks : List ℚ) (i : ℕ) : List ℚ :=
  if isPeakCandidate data m v i && !tooClose peaks i then
    peaks ++ [refinePeakLocation data i]
  else peaks

/-- `enhancedPeakDetection` (App.tsx lines 1347–1387): adaptive-threshold peak
detection; the loop runs `i` from 2 to `data.length - 3`. -/
def enhancedPeakDetection (data : List ℚ) : List ℚ :=
  if data.length < 10 then []
  else (List.range' 2 (data.length - 4)).foldl
    (peakStep data (mean data) (variance data)) []

/-- `heartRate || 75` of `kalmanFilterHeartRate` (line 1438): the displayed
heart rate is `number | null` initialized to `null`; both `null` and `0` are
falsy and give the default estimate 75. -/
def estimateOf : Option ℤ → ℚ
  | none => 75
  | some h => if h = 0 then 75 else (h : ℚ)

/-- `kalmanFilterHeartRate` (App.tsx lines 1435–1462).  Despite its comment
("static using closure"), the source rebuilds `state` on every call, so the
prior `errorCovariance` is the literal 100 each time; only the estimate is
carried over, through the rounded `heartRate` state. -/
def kalmanFilterHeartRate (heartRate : Option ℤ)
    (newMeasurement uncertainty : ℚ) : ℤ :=
  let estimate := estimateOf heartRate
  let errorCovariance : ℚ := 100
  let processNoise : ℚ := 1
  let measurementNoise := 100 - uncertainty
  let predictedEstimate := estimate
  let predictedErrorCovariance := errorCovariance + processNoise
  let kalmanGain := predictedErrorCovariance / (predictedErrorCovariance + measurementNoise)
  let updatedEstimate := predictedEstimate + kalmanGain * (newMeasurement - predictedEstimate)
  round updatedEstimate

/-- The filter the specification describes: identical to
`kalmanFilterHeartRate` except that the prior error covariance is an explicit
argument instead of the hard-wired 100. -/
def kalmanFilterHeartRateWithPrior (priorErrorCovariance : ℚ) (heartRate : Option ℤ)
    (newMeasurement uncertainty : ℚ) : ℤ :=
  let estimate := estimateOf heartRate
  let processNoise : ℚ := 1
  let measurementNoise := 100 - uncertainty
  let predictedEstimate := estimate
  let predictedErrorCovariance := priorErrorCovariance + processNoise
  let kalmanGain := predictedErrorCovariance / (predictedErrorCovariance + measurementNoise)
  let updatedEstimate := predictedEstimate + kalmanGain * (newMeasurement - predictedEstimate)
  round updatedEstimate

/-- The `updatedErrorCovariance` a call of `kalmanFilterHeartRate` computes
(line 1455) and then discards when the call returns. -/
def kalmanUpdatedErrorCovariance (uncertainty : ℚ) : ℚ :=
  let errorCovariance : ℚ := 100
  let processNoise : ℚ := 1
  let measurementNoise := 100 - uncertainty
  let predictedErrorCovariance := errorCovariance + processNoise
  let kalmanGain := predictedErrorCovariance / (predictedErrorCovariance + measurementNoise)
  (1 - kalmanGain) * predictedErrorCovariance

/-- Feeding the filter the same measurement `m` with constant confidence `c`,
each call's rounded output becoming the next call's `heartRate` prior
(exactly how the tick loop wires `setHeartRate(filteredHR)` back in). -/
def kalmanIterate (m : ℤ) (c : ℚ) (p : ℤ) : ℕ → ℤ
  | 0 => p
  | n + 1 => kalmanFilterHeartRate (some (kalmanIterate m c p n)) (m : ℚ) c

/-- The inter-peak intervals `peaks[i] - peaks[i-1]` (lines 1874–1877). -/
def intervalsOf (peaks : List ℚ) : List ℚ :=
  List.zipWith (fun a b => b - a) peaks peaks.tail

/-- `avgInterval` of the tick loop (line 1879). -/
def peakIntervalMean (peaks : List ℚ) : ℚ :=
  sumQ (intervalsOf peaks) / (intervalsOf peaks).length

/-- `intervalVariance` of `calculateSignalQuality` (line 1540). -/
def peakIntervalVariance (peaks : List ℚ) : ℚ :=
  sumQ ((intervalsOf peaks).map fun val => (val - peakIntervalMean peaks) ^ 2)
    / (intervalsOf peaks).length

/-- `calculatedHR = Math.round(60 * samplingRate / avgInterval)` with the
fixed 30 fps sampling rate (lines 1884–1885). -/
def instantBPM (peaks : List ℚ) : ℤ :=
  round ((60 * 30 : ℚ) / peakIntervalMean peaks)

/-- The state the Rate Estimator carries across ticks: the displayed
`heartRate` (`number | null`) and the `measurements` list. -/
structure RateState where
  heartRate : Option ℤ
  measurements : List ℤ

/-- The rate-estimation part of one tick of `startMeasurement`
(App.tsx lines 1872–1906): with at least 2 peaks, compute the instantaneous
BPM, and only if it lies in [MIN_HEARTRATE, MAX_HEARTRATE] feed it to the
Kalman filter, append the filtered value to `measurements` and display it;
otherwise leave every piece of state unchanged. -/
def rateUpdateStep (st : RateState) (confidence : ℚ) (peaks : List ℚ) : RateState :=
  if peaks.length < 2 then st
  else
    let calculatedHR := instantBPM peaks
    if MIN_HEARTRATE ≤ calculatedHR ∧ calculatedHR ≤ MAX_HEARTRATE then
      let filteredHR := kalmanFilterHeartRate st.heartRate (calculatedHR : ℚ) confidence
      ⟨some filteredHR, st.measurements ++ [filteredHR]⟩
    else st

/-- `calculateSignalQuality` (App.tsx lines 1525–1552).  `sq` stands for
`Math.sqrt`, which has no exact ℚ realization; every theorem about this
function holds for an arbitrary `sq`. -/
def calculateSignalQuality (sq : ℚ → ℚ) (data : List ℚ) : ℚ :=
  if data.length < 20 then 0
  else
    let peaks := enhancedPeakDetection data
    if peaks.length < 2 then 1/5
    else
      let cv := sq (peakIntervalVariance peaks) / peakIntervalMean peaks
      let regularityScore := max 0 (min 1 (1 - cv))
      let signalStrength := (listMax data - listMin data) / 50
      let amplitudeScore := min 1 signalStrength
      7/10 * regularityScore + 3/10 * amplitudeScore

/-- `clamp(x, 0, 1)` as the specification writes it. -/
def clamp01 (x : ℚ) : ℚ := max 0 (min 1 x)

/-- `generateSimulatedResult` (App.tsx lines 2149–2201), its two
`Math.random()` draws passed in as `randHR, randO2 ∈ [0,1)`:
`65 + Math.floor(randHR * 20)` and `96 + Math.floor(randO2 * 3)`. -/
def generateSimulatedResult (randHR randO2 : ℚ) : ℤ × ℤ :=
  (65 + ⌊randHR * 20⌋, 96 + ⌊randO2 * 3⌋)

/-- `finishMeasurement` (App.tsx lines 1965–2020), reduced to the final
(heartRate, oxygenLevel) it reports: with ≥ 2 measurements, the rounded mean
of `measurements.slice(-5)` and (when `!oxygenLevel`, i.e. null or 0) a random
96–98 oxygen value; with < 2 measurements, `generateSimulatedResult`.
`randA, randB ∈ [0,1)` stand for the `Math.random()` draws. -/
def finishMeasurement (measurements : List ℤ) (oxygenLevel : Option ℤ)
    (randA randB : ℚ) : ℤ × ℤ :=
  if 2 ≤ measurements.length then
    let recentMeasurements := measurements.drop (measurements.length - 5)
    let averageHR := round ((sumZ recentMeasurements : ℚ) / recentMeasurements.length)
    let finalO2 : ℤ := match oxygenLevel with
      | some v => if v = 0 then ⌊randA * 3⌋ + 96 else v
      | none => ⌊randA * 3⌋ + 96
    (averageHR, finalO2)
  else generateSimulatedResult randA randB

/-- Addition with JavaScript NaN propagation (`none` is NaN/undefined). -/
def jsAdd : Option ℚ → Option ℚ → Option ℚ
  | some a, some b => some (a + b)
  | _, _ => none

/-- Subtraction with NaN propagation. -/
def jsSub : Option ℚ → Option ℚ → Option ℚ
  | some a, some b => some (a - b)
  | _, _ => none

/-- Division with NaN propagation.  A zero divisor is mapped to `none`; in
`removeBaselineWander` the divisor is the positive constant
`windowSize*2 - windowSize/1.5`, so the case never fires there. -/
def jsDiv : Option ℚ → Option ℚ → Option ℚ
  | some a, some b => if b = 0 then none else some (a / b)
  | _, _ => none

/-- `data[j]` for a JavaScript array read at a possibly fractional or
out-of-range index: a non-integer or out-of-range `j` reads `undefined`
(modelled `none`, since it is immediately added into a sum, giving NaN). -/
def jsIndex (data : List ℚ) (j : ℚ) : Option ℚ :=
  if 0 ≤ j ∧ j.den = 1 ∧ (j.num : ℚ) < data.length then some (data.getD j.num.toNat 0)
  else none

/-- The index sequence of `for (let j = start; j < stop; j++)` when `start`
may be fractional (as in `removeBaselineWander`, where the second inner loop
starts at `i + windowSize/3`). -/
def countUp (start stop : ℚ) : List ℚ :=
  (List.range (⌈stop - start⌉).toNat).map fun t => start + t

/-- `removeBaselineWander` (App.tsx lines 1307–1332), with JavaScript NaN
semantics made explicit (`none` = NaN).  `windowSize = min(50,
Math.floor(length/4))`; each interior point subtracts a baseline averaged over
two flanking windows and re-centers at 50.  The second flanking loop starts at
the fractional index `i + windowSize/3` whenever 3 does not divide
`windowSize`, so every term it adds is `data[non-integer] = undefined` and the
baseline (hence the output point) is NaN. -/
def removeBaselineWander (data : List ℚ) : List (Option ℚ) :=
  let windowSize := min 50 (data.length / 4)
  if windowSize < 3 then data.map some
  else
    (List.range data.length).map fun i =>
      if windowSize ≤ i ∧ i < data.length - windowSize then
        let idxs := countUp ((i : ℚ) - windowSize) ((i : ℚ) - windowSize / 3)
          ++ countUp ((i : ℚ) + windowSize / 3) ((i : ℚ) + windowSize)
        let baselineSum := (idxs.map (jsIndex data)).foldl jsAdd (some 0)
        let baseline := jsDiv baselineSum (some ((windowSize : ℚ) * 2 - windowSize / 1.5))
        jsAdd (jsSub (some (data.getD i 0)) baseline) (some 50)
      else some (data.getD i 0)

/-- The concrete conditioned signal refuting the "≥ 8 samples apart" half of
the peak-separation claim: integer candidates at 4 and 12 (exactly 8 apart, so
the second is accepted), but parabolic refinement pulls the second peak to
12 - 1/118, leaving a gap of 943/118 < 8. -/
def cexSignal : List ℚ :=
  [0, 0, 0, 0, 30, 0, 0, 0, 0, 0, 0, 1, 30, 0, 0, 0, 0, 0]

/-- 100 samples 0,1,…,99: a channel history of the steady-state length the
Oxygenation Estimator conditions (`slice(-100)`), for which
`windowSize = 25` is not divisible by 3. -/
def rampSignal100 : List ℚ := (List.range 100).map fun k => (k : ℚ)

end SustainLabs

namespace SustainLabs

/-! ### General helper lemmas -/

lemma round_mono_rat {x y : ℚ} (h : x ≤ y) : round x ≤ round y := by
  rw [round_eq, round_eq]
  exact Int.floor_le_floor (by linarith)

lemma foldl_min_le_init (l : List ℚ) (a : ℚ) : l.foldl min a ≤ a := by
  induction l generalizing a with
  | nil => simp
  | cons x xs ih => exact le_trans (ih (min a x)) (min_le_left a x)

lemma foldl_min_le (l : List ℚ) (a : ℚ) : ∀ x ∈ l, l.foldl min a ≤ x := by
  induction l generalizing a with
  | nil => simp
  | cons y ys ih =>
    intro x hx
    rcases List.mem_cons.mp hx with rfl | hx
    · exact le_trans (foldl_min_le_init ys (min a x)) (min_le_right a x)
    · exact ih (min a y) x hx

lemma foldl_min_mem (l : List ℚ) (a : ℚ) : l.foldl min a = a ∨ l.foldl min a ∈ l := by
  induction l generalizing a with
  | nil => simp
  | cons y ys ih =>
    rw [List.foldl_cons]
    rcases ih (min a y) with h | h
    · rcases min_choice a y with h' | h'
      · left; rw [h, h']
      · right; rw [h, h']; exact List.mem_cons_self y ys
    · right; exact List.mem_cons_of_mem y h

lemma foldl_max_init_le (l : List ℚ) (a : ℚ) : a ≤ l.foldl max a := by
  induction l generalizing a with
  | nil => simp
  | cons x xs ih => exact le_trans (le_max_left a x) (ih (max a x))

lemma foldl_max_le (l : List ℚ) (a : ℚ) : ∀ x ∈ l, x ≤ l.foldl max a := by
  induction l generalizing a with
  | nil => simp
  | cons y ys ih =>
    intro x hx
    rcases List.mem_cons.mp hx with rfl | hx
    · exact le_trans (le_max_right a x) (foldl_max_init_le ys (max a x))
    · exact ih (max a y) x hx

lemma foldl_max_mem (l : List ℚ) (a : ℚ) : l.foldl max a = a ∨ l.foldl max a ∈ l := by
  induction l generalizing a with
  | nil => simp
  | cons y ys ih =>
    rw [List.foldl_cons]
    rcases ih (max a y) with h | h
    · rcases max_choice a y with h' | h'
      · left; rw [h, h']
      · right; rw [h, h']; exact List.mem_cons_self y ys
    · right; exact List.mem_cons_of_mem y h

lemma listMin_le (l : List ℚ) : ∀ x ∈ l, listMin l ≤ x := by
  cases l with
  | nil => simp
  | cons y ys =>
    intro x hx
    rcases List.mem_cons.mp hx with rfl | hx
    · exact foldl_min_le_init ys x
    · exact foldl_min_le ys y x hx

lemma listMin_mem (l : List ℚ) (h : l ≠ []) : listMin l ∈ l := by
  cases l with
  | nil => exact absurd rfl h
  | cons y ys =>
    rcases foldl_min_mem ys y with h' | h'
    · rw [listMin, h']; exact List.mem_cons_self y ys
    · exact List.mem_cons_of_mem y h'

lemma le_listMax (l : List ℚ) : ∀ x ∈ l, x ≤ listMax l := by
  cases l with
  | nil => simp
  | cons y ys =>
    intro x hx
    rcases List.mem_cons.mp hx with rfl | hx
    · exact foldl_max_init_le ys x
    · exact foldl_max_le ys y x hx

lemma listMax_mem (l : List ℚ) (h : l ≠ []) : listMax l ∈ l := by
  cases l with
  | nil => exact absurd rfl h
  | cons y ys =>
    rcases foldl_max_mem ys y with h' | h'
    · rw [listMax, h']; exact List.mem_cons_self y ys
    · exact List.mem_cons_of_mem y h'

lemma listMin_le_listMax (l : List ℚ) (h : l ≠ []) : listMin l ≤ listMax l :=
  le_trans (listMin_le l _ (listMax_mem l h)) (le_refl _)

lemma listMin_eq_of (l : List ℚ) (y : ℚ) (hy : y ∈ l) (hle : ∀ x ∈ l, y ≤ x) :
    listMin l = y :=
  le_antisymm (listMin_le l y hy) (hle _ (listMin_mem l (List.ne_nil_of_mem hy)))

lemma listMax_eq_of (l : List ℚ) (y : ℚ) (hy : y ∈ l) (hle : ∀ x ∈ l, x ≤ y) :
    listMax l = y :=
  le_antisymm (hle _ (listMax_mem l (List.ne_nil_of_mem hy))) (le_listMax l y hy)

end SustainLabs

namespace SustainLabs

/-! ### Peak refinement (claim C10) -/

lemma refine_close (data : List ℚ) (i : ℕ) :
    |refinePeakLocation data i - (i : ℚ)| < 1 := by
  simp only [refinePeakLocation]
  split_ifs with h1 h2
  · simp
  · simpa using h2
  · simp

/-- C10: `refinePeakLocation` is total and bounded: its value differs from the
given integer index by strictly less than 1; it returns the index unchanged at
the boundary (`peakIndex ≤ 0` or `peakIndex ≥ data.length - 1`) and whenever
the parabolic denominator `y₋₁ - 2y₀ + y₊₁` vanishes (in JavaScript the
non-finite offset fails the `|offset| < 1` guard; in this embedding the
offset is the zero-division value 0 — the returned value is the index either
way). -/
theorem refinePeakLocation_spec :
    ∀ (data : List ℚ) (i : ℕ),
      |refinePeakLocation data i - (i : ℚ)| < 1 ∧
      (i = 0 ∨ data.length - 1 ≤ i → refinePeakLocation data i = (i : ℚ)) ∧
      (data.getD (i - 1) 0 - 2 * data.getD i 0 + data.getD (i + 1) 0 = 0 →
        refinePeakLocation data i = (i : ℚ)) := by
  intro data i
  refine ⟨refine_close data i, ?_, ?_⟩
  · intro h
    simp only [refinePeakLocation]
    rw [if_pos h]
  · intro h
    simp only [refinePeakLocation]
    split_ifs with h1 h2
    · rfl
    · rw [h, mul_zero, div_zero, add_zero]
    · rfl

/-! ### Liveness classifier (claim C3) -/

/-- C3: the liveness classifier `verifyHumanFingerprint` accepts `{r,g,b}`
iff red strictly dominates green and blue, green strictly exceeds blue, and
the red-to-blue ratio exceeds 1.3 (blue = 0 being replaced by 1); in
particular (200,100,50) is live, (100,100,100) and (200,50,180) are not. -/
theorem verifyHumanFingerprint_spec :
    (∀ r g b : ℚ, verifyHumanFingerprint r g b = true ↔
      ((g < r ∧ b < r) ∧ b < g ∧ (13/10 : ℚ) < r / (if b = 0 then 1 else b))) ∧
    verifyHumanFingerprint 200 100 50 = true ∧
    verifyHumanFingerprint 100 100 100 = false ∧
    verifyHumanFingerprint 200 50 180 = false := by
  refine ⟨fun r g b => ?_, ?_, ?_, ?_⟩
  · simp [verifyHumanFingerprint, and_assoc]
  · norm_num [verifyHumanFingerprint]
  · norm_num [verifyHumanFingerprint]
  · norm_num [verifyHumanFingerprint]

/-! ### Signal normalization (claim C4) -/

/-- C4: on a nonempty input whose values are not all equal, `normalizeSignal`
preserves length and produces a signal with minimum exactly 10 and maximum
exactly 90; on a nonempty constant input every output sample is 50. -/
theorem normalizeSignal_spec (data : List ℚ) (hne : data ≠ []) :
    ((∃ a ∈ data, ∃ b ∈ data, a ≠ b) →
      (normalizeSignal data).length = data.length ∧
      listMin (normalizeSignal data) = 10 ∧ listMax (normalizeSignal data) = 90) ∧
    ((∀ a ∈ data, ∀ b ∈ data, a = b) → ∀ y ∈ normalizeSignal data, y = 50) := by
  have hlen : ¬ data.length = 0 := fun h => hne (List.length_eq_zero.mp h)
  constructor
  · rintro ⟨a, ha, b, hb, hab⟩
    have hmnmx : listMin data < listMax data := by
      rcases lt_or_eq_of_le (listMin_le_listMax data hne) with h | h
      · exact h
      · exfalso
        apply hab
        have h1 : a = listMin data :=
          le_antisymm (h ▸ le_listMax data a ha) (listMin_le data a ha)
        have h2 : b = listMin data :=
          le_antisymm (h ▸ le_listMax data b hb) (listMin_le data b hb)
        rw [h1, h2]
    have hne' : ¬ listMax data = listMin data := ne_of_gt hmnmx
    have hform : normalizeSignal data =
        data.map fun val => (val - listMin data) / (listMax data - listMin data) * 80 + 10 := by
      simp only [normalizeSignal]
      rw [if_neg hlen, if_neg hne']
    have hsub : (0 : ℚ) < listMax data - listMin data := sub_pos.mpr hmnmx
    have hmem10 : (10 : ℚ) ∈ normalizeSignal data := by
      rw [hform]
      refine List.mem_map.mpr ⟨listMin data, listMin_mem data hne, ?_⟩
      rw [sub_self, zero_div, zero_mul, zero_add]
    have hmem90 : (90 : ℚ) ∈ normalizeSignal data := by
      rw [hform]
      refine List.mem_map.mpr ⟨listMax data, listMax_mem data hne, ?_⟩
      rw [div_self (ne_of_gt hsub)]
      norm_num
    have hlb : ∀ y ∈ normalizeSignal data, 10 ≤ y := by
      rw [hform]
      intro y hy
      obtain ⟨v, hv, rfl⟩ := List.mem_map.mp hy
      have h0 : 0 ≤ (v - listMin data) / (listMax data - listMin data) :=
        div_nonneg (sub_nonneg.mpr (listMin_le data v hv)) hsub.le
      nlinarith
    have hub : ∀ y ∈ normalizeSignal data, y ≤ 90 := by
      rw [hform]
      intro y hy
      obtain ⟨v, hv, rfl⟩ := List.mem_map.mp hy
      have h1 : (v - listMin data) / (listMax data - listMin data) ≤ 1 :=
        (div_le_one hsub).mpr (sub_le_sub_right (le_listMax data v hv) _)
      nlinarith
    refine ⟨?_, listMin_eq_of _ _ hmem10 hlb, listMax_eq_of _ _ hmem90 hub⟩
    rw [hform, List.length_map]
  · intro hconst y hy
    have heq : listMax data = listMin data :=
      hconst _ (listMax_mem data hne) _ (listMin_mem data hne)
    simp only [normalizeSignal] at hy
    rw [if_neg hlen, if_pos heq] at hy
    obtain ⟨v, _, rfl⟩ := List.mem_map.mp hy
    rfl

/-- C4 witness: the input [0, 1] is nonempty with two unequal values, and the
theorem instantiates to it. -/
theorem normalizeSignal_spec_witness :
    ((∃ a ∈ [(0 : ℚ), 1], ∃ b ∈ [(0 : ℚ), 1], a ≠ b) →
      (normalizeSignal [(0 : ℚ), 1]).length = ([(0 : ℚ), 1] : List ℚ).length ∧
      listMin (normalizeSignal [(0 : ℚ), 1]) = 10 ∧
      listMax (normalizeSignal [(0 : ℚ), 1]) = 90) ∧
    ((∀ a ∈ [(0 : ℚ), 1], ∀ b ∈ [(0 : ℚ), 1], a = b) →
      ∀ y ∈ normalizeSignal [(0 : ℚ), 1], y = 50) :=
  normalizeSignal_spec [(0 : ℚ), 1] (by simp)

end SustainLabs

namespace SustainLabs

/-! ### Peak detector separation (claim C2) -/

lemma peakStep_inv (data : List ℚ) (m v : ℚ) (acc : List ℚ) (s : ℕ)
    (h1 : ∀ p ∈ acc, p < (s : ℚ))
    (h2 : acc.Pairwise fun p q => p < q ∧ 7 < q - p) :
    (∀ p ∈ peakStep data m v acc s, p < ((s : ℚ) + 1)) ∧
    (peakStep data m v acc s).Pairwise fun p q => p < q ∧ 7 < q - p := by
  unfold peakStep
  split
  · rename_i hcond
    rw [Bool.and_eq_true] at hcond
    have hnc : ∀ p ∈ acc, ¬ (|(s : ℚ) - p| < 8) := by
      have hb := hcond.2
      rw [Bool.not_eq_true'] at hb
      intro p hp
      have := List.any_eq_false.mp hb p hp
      simpa using this
    have hr := refine_close data s
    have hr' := abs_lt.mp hr
    constructor
    · intro p hp
      rcases List.mem_append.mp hp with hp | hp
      · exact lt_trans (h1 p hp) (by linarith)
      · rw [List.mem_singleton] at hp
        subst hp
        linarith [hr'.2]
    · rw [List.pairwise_append]
      refine ⟨h2, List.pairwise_singleton _ _, ?_⟩
      intro p hp r hrr
      rw [List.mem_singleton] at hrr
      subst hrr
      have hps : p < (s : ℚ) := h1 p hp
      have h8 : 8 ≤ |(s : ℚ) - p| := not_lt.mp (hnc p hp)
      rw [abs_of_pos (by linarith)] at h8
      exact ⟨by linarith [hr'.1], by linarith [hr'.1]⟩
  · exact ⟨fun p hp => lt_trans (h1 p hp) (by linarith), h2⟩

lemma peakFold_inv (data : List ℚ) (m v : ℚ) :
    ∀ (n s : ℕ) (acc : List ℚ),
      (∀ p ∈ acc, p < (s : ℚ)) →
      acc.Pairwise (fun p q => p < q ∧ 7 < q - p) →
      (∀ p ∈ (List.range' s n).foldl (peakStep data m v) acc, p < ((s + n : ℕ) : ℚ)) ∧
      ((List.range' s n).foldl (peakStep data m v) acc).Pairwise
        fun p q => p < q ∧ 7 < q - p := by
  intro n
  induction n with
  | zero =>
    intro s acc h1 h2
    simpa using ⟨h1, h2⟩
  | succ n ih =>
    intro s acc h1 h2
    have hrange : List.range' s (n + 1) = s :: List.range' (s + 1) n := rfl
    rw [hrange, List.foldl_cons]
    have hstep := peakStep_inv data m v acc s h1 h2
    have hstep1 : ∀ p ∈ peakStep data m v acc s, p < ((s + 1 : ℕ) : ℚ) := by
      intro p hp
      have := hstep.1 p hp
      push_cast
      linarith
    have := ih (s + 1) (peakStep data m v acc s) hstep1 hstep.2
    refine ⟨fun p hp => ?_, this.2⟩
    have h := this.1 p hp
    have harith : ((s + 1 + n : ℕ) : ℚ) = ((s + (n + 1) : ℕ) : ℚ) := by push_cast; ring
    rw [harith] at h
    exact h

/-- C2, amended: for every input signal the peak positions returned by
`enhancedPeakDetection` are strictly increasing and any two of them differ by
MORE THAN 7 samples.  (The unrefined integer candidates are kept ≥ 8 apart,
but the parabolic refinement moves an accepted peak by strictly less than one
sample, so two returned positions can end up less than 8 apart — see the
counterexample — while never 7 or less.) -/
theorem enhancedPeakDetection_pairwise :
    ∀ data : List ℚ, (enhancedPeakDetection data).Pairwise
      fun p q => p < q ∧ 7 < q - p := by
  intro data
  unfold enhancedPeakDetection
  split
  · exact List.Pairwise.nil
  · exact (peakFold_inv data (mean data) (variance data) (data.length - 4) 2 []
      (by simp) List.Pairwise.nil).2

set_option maxRecDepth 4000 in
unseal Rat.add Rat.mul Rat.inv Rat.sub Rat.ofScientific in
/-- C2 counterexample: on `cexSignal` the detector returns the peaks
4 and 12 - 1/118 = 1415/118 (the integer candidates 4 and 12 are exactly 8
apart, so the second is accepted; refinement then pulls it left), and these
two returned positions differ by 943/118 < 8, refuting "any two returned
positions differ by at least 8 samples". -/
theorem enhancedPeakDetection_gap_counterexample :
    enhancedPeakDetection cexSignal = [4, 1415/118] ∧
    ¬ (8 ≤ (1415/118 : ℚ) - 4) := by
  constructor
  · decide
  · decide

end SustainLabs

namespace SustainLabs

/-! ### The recursive (Kalman) rate filter (claims C1, C5, C6) -/

lemma kalmanFilterHeartRate_eq (prior : Option ℤ) (m c : ℚ) :
    kalmanFilterHeartRate prior m c =
      round (estimateOf prior + 101 / (201 - c) * (m - estimateOf prior)) := by
  simp only [kalmanFilterHeartRate]
  congr 2
  ring_nf

lemma kalman_between (prior : Option ℤ) (m c : ℚ) (L U : ℤ)
    (hc1 : c ≤ 100)
    (heL : (L : ℚ) ≤ estimateOf prior) (heU : estimateOf prior ≤ (U : ℚ))
    (hmL : (L : ℚ) ≤ m) (hmU : m ≤ (U : ℚ)) :
    L ≤ kalmanFilterHeartRate prior m c ∧ kalmanFilterHeartRate prior m c ≤ U := by
  rw [kalmanFilterHeartRate_eq]
  set e := estimateOf prior with he
  have hden : (0 : ℚ) < 201 - c := by linarith
  have hg0 : 0 ≤ 101 / (201 - c) := div_nonneg (by norm_num) (by linarith)
  have hg1 : 101 / (201 - c) ≤ 1 := by
    rw [div_le_one hden]
    linarith
  have hL : (L : ℚ) ≤ e + 101 / (201 - c) * (m - e) := by
    nlinarith [mul_le_mul_of_nonneg_left (sub_nonneg.mpr hmL) hg0,
      mul_le_mul_of_nonneg_left (sub_nonneg.mpr heL) (sub_nonneg.mpr hg1)]
  have hU : e + 101 / (201 - c) * (m - e) ≤ (U : ℚ) := by
    nlinarith [mul_le_mul_of_nonneg_left (sub_nonneg.mpr hmU) hg0,
      mul_le_mul_of_nonneg_left (sub_nonneg.mpr heU) (sub_nonneg.mpr hg1)]
  constructor
  · have := round_mono_rat hL
    rwa [round_intCast] at this
  · have := round_mono_rat hU
    rwa [round_intCast] at this

lemma kalman_fixed (m : ℤ) (c : ℚ) (hm : m ≠ 0) :
    kalmanFilterHeartRate (some m) (m : ℚ) c = m := by
  rw [kalmanFilterHeartRate_eq]
  simp [estimateOf, hm]

lemma kalman_contract (p m : ℤ) (c : ℚ) (hp : p ≠ 0) (hc0 : 0 ≤ c) (hc1 : c ≤ 100)
    (hne : p ≠ m) :
    (kalmanFilterHeartRate (some p) (m : ℚ) c - m).natAbs < (p - m).natAbs := by
  have he : estimateOf (some p) = (p : ℚ) := by simp [estimateOf, hp]
  rw [kalmanFilterHeartRate_eq, he]
  set u : ℚ := (p : ℚ) + 101 / (201 - c) * ((m : ℚ) - p) with hu
  have hden : (0 : ℚ) < 201 - c := by linarith
  have hg1 : 101 / (201 - c) ≤ 1 := by rw [div_le_one hden]; linarith
  have hfrac : 1 - 101 / (201 - c) = (100 - c) / (201 - c) := by
    field_simp
    ring
  have hub : 1 - 101 / (201 - c) ≤ 100 / 201 := by
    rw [hfrac, div_le_div_iff₀ hden (by norm_num)]
    nlinarith
  have hum : u - (m : ℚ) = (1 - 101 / (201 - c)) * ((p : ℚ) - m) := by rw [hu]; ring
  have habs : |u - (m : ℚ)| ≤ 100 / 201 * |(p : ℚ) - m| := by
    rw [hum, abs_mul, abs_of_nonneg (by linarith : (0:ℚ) ≤ 1 - 101 / (201 - c))]
    exact mul_le_mul_of_nonneg_right hub (abs_nonneg _)
  have hd1 : (1 : ℚ) ≤ |(p : ℚ) - m| := by
    have h := Int.one_le_abs (sub_ne_zero.mpr hne)
    calc (1 : ℚ) = ((1 : ℤ) : ℚ) := by norm_num
    _ ≤ ((|p - m| : ℤ) : ℚ) := by exact_mod_cast h
    _ = |(p : ℚ) - m| := by rw [Int.cast_abs]; push_cast; ring_nf
  have hrd : |(round u : ℚ) - u| ≤ 1 / 2 := by
    simpa [abs_sub_comm] using abs_sub_round u
  have hfinal : |(round u : ℚ) - m| < |(p : ℚ) - m| := by
    have htri : |(round u : ℚ) - m| ≤ |(round u : ℚ) - u| + |u - (m : ℚ)| := abs_sub_le _ _ _
    linarith
  have hcast : ((round u - m).natAbs : ℚ) < ((p - m).natAbs : ℚ) := by
    rw [Int.cast_natAbs, Int.cast_natAbs]
    push_cast
    exact hfinal
  exact_mod_cast hcast

lemma kalmanIterate_shift (m : ℤ) (c : ℚ) (p : ℤ) (n : ℕ) :
    kalmanIterate m c p (n + 1) =
      kalmanIterate m c (kalmanFilterHeartRate (some p) (m : ℚ) c) n := by
  induction n with
  | zero => rfl
  | succ n ih =>
    have h1 : kalmanIterate m c p (n + 1 + 1) =
        kalmanFilterHeartRate (some (kalmanIterate m c p (n + 1))) (m : ℚ) c := rfl
    have h2 : kalmanIterate m c (kalmanFilterHeartRate (some p) (m : ℚ) c) (n + 1) =
        kalmanFilterHeartRate
          (some (kalmanIterate m c (kalmanFilterHeartRate (some p) (m : ℚ) c) n)) (m : ℚ) c := rfl
    rw [h1, ih, ← h2]

lemma kalman_conv_from (m : ℤ) (c : ℚ) (hm1 : 40 ≤ m) (hm2 : m ≤ 220)
    (hc0 : 0 ≤ c) (hc1 : c ≤ 100) :
    ∀ d : ℕ, ∀ p : ℤ, 1 ≤ p → (p - m).natAbs ≤ d →
      ∃ N, kalmanIterate m c p N = m := by
  intro d
  induction d with
  | zero =>
    intro p hp h0
    refine ⟨0, ?_⟩
    have h : kalmanIterate m c p 0 = p := rfl
    omega
  | succ d ih =>
    intro p hp hd
    by_cases hpm : p = m
    · exact ⟨0, hpm⟩
    · have hep : estimateOf (some p) = (p : ℚ) := by
        simp [estimateOf, show p ≠ 0 by omega]
      have hbet := kalman_between (some p) (m : ℚ) c 1 (max p m) hc1
        (by rw [hep]; exact_mod_cast hp)
        (by rw [hep]; exact_mod_cast le_max_left p m)
        (by exact_mod_cast (by omega : (1:ℤ) ≤ m))
        (by exact_mod_cast le_max_right p m)
      have hlt := kalman_contract p m c (by omega) hc0 hc1 hpm
      obtain ⟨N, hN⟩ := ih (kalmanFilterHeartRate (some p) (m : ℚ) c) hbet.1 (by omega)
      exact ⟨N + 1, by rw [kalmanIterate_shift]; exact hN⟩

/-- C5: feeding the filter the same accepted integer measurement `m`
repeatedly (each call's rounded output wired back as the next prior, exactly
as the tick loop does through the `heartRate` state), with any constant
confidence in [0, 100] and any nonnegative starting prior, reaches `m` after
finitely many iterations and stays there. -/
theorem kalman_repeated_convergence (m p0 : ℤ) (c : ℚ)
    (hm : 40 ≤ m ∧ m ≤ 220) (hc : 0 ≤ c ∧ c ≤ 100) (hp0 : 0 ≤ p0) :
    ∃ N, ∀ k, N ≤ k → kalmanIterate m c p0 k = m := by
  obtain ⟨hm1, hm2⟩ := hm
  obtain ⟨hc1, hc2⟩ := hc
  have main : ∃ N, kalmanIterate m c p0 N = m := by
    rcases eq_or_lt_of_le hp0 with h0 | h0
    · have hest : estimateOf (some p0) = 75 := by simp [estimateOf, ← h0]
      have hbet := kalman_between (some p0) (m : ℚ) c 40 220 hc2
        (by rw [hest]; norm_num) (by rw [hest]; norm_num)
        (by exact_mod_cast hm1) (by exact_mod_cast hm2)
      obtain ⟨N, hN⟩ := kalman_conv_from m c hm1 hm2 hc1 hc2
        ((kalmanFilterHeartRate (some p0) (m : ℚ) c) - m).natAbs
        (kalmanFilterHeartRate (some p0) (m : ℚ) c) (by omega) le_rfl
      exact ⟨N + 1, by rw [kalmanIterate_shift]; exact hN⟩
    · exact kalman_conv_from m c hm1 hm2 hc1 hc2 (p0 - m).natAbs p0 (by omega) le_rfl
  obtain ⟨N, hN⟩ := main
  refine ⟨N, fun k hk => ?_⟩
  induction k, hk using Nat.le_induction with
  | base => exact hN
  | succ k hk1 ih =>
    have hstep : kalmanIterate m c p0 (k + 1) =
        kalmanFilterHeartRate (some (kalmanIterate m c p0 k)) (m : ℚ) c := rfl
    rw [hstep, ih]
    exact kalman_fixed m c (by omega)

/-- C5 witness: with measurement 72, confidence 50% and the initial
prior 0 (no displayed heart rate yet), the iteration converges to 72. -/
theorem kalman_repeated_convergence_witness :
    ∃ N, ∀ k, N ≤ k → kalmanIterate 72 (1/2) 0 k = 72 :=
  kalman_repeated_convergence 72 0 (1/2)
    ⟨by norm_num, by norm_num⟩ ⟨by norm_num, by norm_num⟩ le_rfl

end SustainLabs

namespace SustainLabs

/-! ### Rate-estimator acceptance invariant (claim C1) -/

/-- C1: one tick of the rate estimator preserves the physiological range: if
the displayed heart rate (when present) and all stored measurements lie in
[40, 220] and the confidence lies in [0, 100], then after the tick every
stored measurement and the displayed heart rate still lie in [40, 220]; and
whenever the instantaneous BPM computed from the peak intervals falls outside
[MIN_HEARTRATE, MAX_HEARTRATE] the whole state is returned unchanged — the
value is discarded, nothing is stored and the filter state does not move. -/
theorem rateUpdateStep_range (st : RateState) (c : ℚ) (peaks : List ℚ)
    (hc : 0 ≤ c ∧ c ≤ 100)
    (hhr : ∀ h, st.heartRate = some h → 40 ≤ h ∧ h ≤ 220)
    (hms : ∀ x ∈ st.measurements, 40 ≤ x ∧ x ≤ 220) :
    (∀ x ∈ (rateUpdateStep st c peaks).measurements, 40 ≤ x ∧ x ≤ 220) ∧
    (∀ h, (rateUpdateStep st c peaks).heartRate = some h → 40 ≤ h ∧ h ≤ 220) ∧
    (¬ (MIN_HEARTRATE ≤ instantBPM peaks ∧ instantBPM peaks ≤ MAX_HEARTRATE) →
      rateUpdateStep st c peaks = st) := by
  simp only [rateUpdateStep]
  split
  · exact ⟨hms, hhr, fun _ => rfl⟩
  · split
    · rename_i hgate
      rw [MIN_HEARTRATE, MAX_HEARTRATE] at hgate
      have hest : (40 : ℚ) ≤ estimateOf st.heartRate ∧ estimateOf st.heartRate ≤ 220 := by
        cases hsh : st.heartRate with
        | none => simp [estimateOf]; norm_num
        | some h =>
          obtain ⟨h1, h2⟩ := hhr h hsh
          rw [estimateOf, if_neg (by omega : ¬ h = 0)]
          exact ⟨by exact_mod_cast h1, by exact_mod_cast h2⟩
      have hb := kalman_between st.heartRate ((instantBPM peaks : ℤ) : ℚ) c 40 220 hc.2
        hest.1 hest.2 (by exact_mod_cast hgate.1) (by exact_mod_cast hgate.2)
      refine ⟨?_, ?_,
        fun hno => absurd (by rw [MIN_HEARTRATE, MAX_HEARTRATE]; exact hgate) hno⟩
      · intro x hx
        rcases List.mem_append.mp hx with hx | hx
        · exact hms x hx
        · rw [List.mem_singleton] at hx
          subst hx
          exact hb
      · intro h hh
        rw [Option.some_inj] at hh
        subst hh
        exact hb
    · exact ⟨hms, hhr, fun _ => rfl⟩

/-- C1 witness: a fresh session state (no displayed rate, no measurements),
confidence 0, and the two peaks 0 and 10 (instantaneous BPM 180, accepted). -/
theorem rateUpdateStep_range_witness :
    (∀ x ∈ (rateUpdateStep ⟨none, []⟩ 0 [0, 10]).measurements, 40 ≤ x ∧ x ≤ 220) ∧
    (∀ h, (rateUpdateStep ⟨none, []⟩ 0 [0, 10]).heartRate = some h → 40 ≤ h ∧ h ≤ 220) ∧
    (¬ (MIN_HEARTRATE ≤ instantBPM [0, 10] ∧ instantBPM [0, 10] ≤ MAX_HEARTRATE) →
      rateUpdateStep ⟨none, []⟩ 0 [0, 10] = ⟨none, []⟩) :=
  rateUpdateStep_range ⟨none, []⟩ 0 [0, 10] ⟨le_rfl, by norm_num⟩
    (fun h hh => by simp at hh) (fun x hx => by simp at hx)

/-! ### The filter state is rebuilt every call (claim C6) -/

set_option maxRecDepth 4000 in
unseal Rat.add Rat.mul Rat.inv Rat.sub Rat.ofScientific in
/-- C6, the code bug made explicit: every call of `kalmanFilterHeartRate` is
exactly a call of the spec-side `kalmanFilterHeartRateWithPrior` with prior
error covariance 100 — the covariance the previous accepted measurement
computed is never fed back — while the updated covariance a call computes
(here at confidence 80: (1 - 101/121)·101 = 2020/121 ≈ 16.7) is not 100, so
the claimed persistence `errorCovariance' = (1-gain)·predictedErrorCovariance
carried into the next tick` does not hold in the code. -/
theorem kalman_covariance_not_persisted :
    (∀ (p : Option ℤ) (m c : ℚ),
      kalmanFilterHeartRate p m c = kalmanFilterHeartRateWithPrior 100 p m c) ∧
    kalmanUpdatedErrorCovariance 80 = 2020/121 ∧ ((2020/121 : ℚ) ≠ 100) := by
  refine ⟨fun p m c => rfl, ?_, ?_⟩
  · decide
  · decide

end SustainLabs

namespace SustainLabs

/-! ### Signal quality scorer (claim C8) -/

/-- C8: for every square-root realization `sq` and every input,
`calculateSignalQuality` returns 0 below 20 samples, 1/5 when peak detection
finds fewer than 2 peaks, and otherwise
`0.7·clamp(1 - CV, 0, 1) + 0.3·clamp((max-min)/50, 0, 1)` with
`CV = sq(interval variance)/interval mean`; in every case the result lies in
[0, 1]. -/
theorem calculateSignalQuality_spec :
    ∀ (sq : ℚ → ℚ) (data : List ℚ),
      (data.length < 20 → calculateSignalQuality sq data = 0) ∧
      (20 ≤ data.length → (enhancedPeakDetection data).length < 2 →
        calculateSignalQuality sq data = 1/5) ∧
      (20 ≤ data.length → 2 ≤ (enhancedPeakDetection data).length →
        calculateSignalQuality sq data =
          7/10 * clamp01 (1 - sq (peakIntervalVariance (enhancedPeakDetection data))
              / peakIntervalMean (enhancedPeakDetection data))
          + 3/10 * clamp01 ((listMax data - listMin data) / 50)) ∧
      (0 ≤ calculateSignalQuality sq data ∧ calculateSignalQuality sq data ≤ 1) := by
  intro sq data
  simp only [calculateSignalQuality]
  split
  · rename_i hlen
    exact ⟨fun _ => rfl, fun h _ => absurd hlen (by omega), fun h _ => absurd hlen (by omega),
      le_rfl, by norm_num⟩
  · rename_i hlen
    split
    · rename_i hpk
      exact ⟨fun h => absurd h hlen, fun _ _ => rfl, fun _ h2 => absurd hpk (by omega),
        by norm_num, by norm_num⟩
    · rename_i hpk
      have hne : data ≠ [] := by
        intro h
        rw [h] at hlen
        simp at hlen
      have hs0 : (0 : ℚ) ≤ (listMax data - listMin data) / 50 :=
        div_nonneg (sub_nonneg.mpr (listMin_le_listMax data hne)) (by norm_num)
      have hclampA : clamp01 ((listMax data - listMin data) / 50)
          = min 1 ((listMax data - listMin data) / 50) := by
        rw [clamp01, max_eq_right (le_min (by norm_num) hs0)]
      refine ⟨fun h => absurd h hlen, fun _ h => absurd h (by omega), fun _ _ => ?_, ?_⟩
      · rw [hclampA]
        rfl
      · set cv := sq (peakIntervalVariance (enhancedPeakDetection data))
          / peakIntervalMean (enhancedPeakDetection data) with hcv
        have hra : 0 ≤ max 0 (min 1 (1 - cv)) := le_max_left 0 _
        have hrb : max 0 (min 1 (1 - cv)) ≤ 1 := max_le (by norm_num) (min_le_left 1 _)
        have haa : 0 ≤ min 1 ((listMax data - listMin data) / 50) := le_min (by norm_num) hs0
        have hab : min 1 ((listMax data - listMin data) / 50) ≤ 1 := min_le_left 1 _
        constructor
        · nlinarith
        · nlinarith

/-! ### Session finish and synthesized fallback (claim C9) -/

/-- C9: with at least two accepted measurements the final reported heart rate
is the rounded mean of the last five (or all, when fewer than five)
measurements; with fewer than two, the controller synthesizes a result whose
heart rate lies in [65, 85) and whose oxygen lies in [96, 99), for any
`Math.random()` draws in [0, 1). -/
theorem finishMeasurement_spec (ms : List ℤ) (o2 : Option ℤ) (ra rb : ℚ)
    (hra : 0 ≤ ra ∧ ra < 1) (hrb : 0 ≤ rb ∧ rb < 1) :
    (2 ≤ ms.length →
      (finishMeasurement ms o2 ra rb).1 =
        round ((sumZ (ms.drop (ms.length - 5)) : ℚ) / ((min 5 ms.length : ℕ) : ℚ))) ∧
    (ms.length < 2 →
      65 ≤ (finishMeasurement ms o2 ra rb).1 ∧ (finishMeasurement ms o2 ra rb).1 < 85 ∧
      96 ≤ (finishMeasurement ms o2 ra rb).2 ∧ (finishMeasurement ms o2 ra rb).2 < 99) := by
  simp only [finishMeasurement]
  split
  · rename_i h2
    refine ⟨fun _ => ?_, fun hlt => absurd h2 (by omega)⟩
    have hlen : (ms.drop (ms.length - 5)).length = min 5 ms.length := by
      rw [List.length_drop]
      omega
    rw [hlen]
  · rename_i h2
    refine ⟨fun h => absurd h h2, fun _ => ?_⟩
    simp only [generateSimulatedResult]
    have ha0 : (0 : ℤ) ≤ ⌊ra * 20⌋ := Int.floor_nonneg.mpr (by nlinarith [hra.1])
    have ha1 : ⌊ra * 20⌋ < 20 := by
      have h20 : ra * 20 < 20 := by nlinarith [hra.2]
      exact Int.floor_lt.mpr (by exact_mod_cast h20)
    have hb0 : (0 : ℤ) ≤ ⌊rb * 3⌋ := Int.floor_nonneg.mpr (by nlinarith [hrb.1])
    have hb1 : ⌊rb * 3⌋ < 3 := by
      have h3 : rb * 3 < 3 := by nlinarith [hrb.2]
      exact Int.floor_lt.mpr (by exact_mod_cast h3)
    refine ⟨by omega, by omega, by omega, by omega⟩

/-- C9 witness: an empty measurement list (no estimate ever accepted) with
both random draws 1/2: the synthesized result is (75, 97). -/
theorem finishMeasurement_spec_witness :
    (2 ≤ ([] : List ℤ).length →
      (finishMeasurement [] none (1/2) (1/2)).1 =
        round ((sumZ (([] : List ℤ).drop (([] : List ℤ).length - 5)) : ℚ) /
          ((min 5 ([] : List ℤ).length : ℕ) : ℚ))) ∧
    (([] : List ℤ).length < 2 →
      65 ≤ (finishMeasurement [] none (1/2) (1/2)).1 ∧
      (finishMeasurement [] none (1/2) (1/2)).1 < 85 ∧
      96 ≤ (finishMeasurement [] none (1/2) (1/2)).2 ∧
      (finishMeasurement [] none (1/2) (1/2)).2 < 99) :=
  finishMeasurement_spec [] none (1/2) (1/2) ⟨by norm_num, by norm_num⟩
    ⟨by norm_num, by norm_num⟩

/-! ### The squared threshold encoding agrees with the source formula -/

lemma mul_sqrt_lt_iff (co u v : ℝ) (hc : 0 < co) (hv : 0 ≤ v) :
    co * Real.sqrt v < u ↔ 0 < u ∧ co ^ 2 * v < u ^ 2 := by
  have hs : 0 ≤ Real.sqrt v := Real.sqrt_nonneg v
  have hsq : Real.sqrt v ^ 2 = v := Real.sq_sqrt hv
  constructor
  · intro h
    have hu : 0 < u := lt_of_le_of_lt (mul_nonneg hc.le hs) h
    refine ⟨hu, ?_⟩
    calc co ^ 2 * v = (co * Real.sqrt v) ^ 2 := by rw [mul_pow, hsq]
    _ < u ^ 2 := pow_lt_pow_left₀ h (mul_nonneg hc.le hs) (by norm_num)
  · rintro ⟨hu, h2⟩
    have h3 : (co * Real.sqrt v) ^ 2 < u ^ 2 := by rw [mul_pow, hsq]; exact h2
    exact lt_of_pow_lt_pow_left₀ 2 hu.le h3

/-- The ℚ-valued squared encoding `exceedsAdaptiveThreshold x m v` holds iff
the source comparison `x > m + (1.5 + min(1, √v/20))·√v` holds over ℝ (for
the nonnegative `v` the variance always is): the encoding is exact, not an
approximation. -/
theorem exceedsAdaptiveThreshold_iff (x m v : ℚ) (hv : 0 ≤ v) :
    exceedsAdaptiveThreshold x m v = true ↔
      (m : ℝ) + (3/2 + min 1 (Real.sqrt (v : ℝ) / 20)) * Real.sqrt (v : ℝ) < (x : ℝ) := by
  have hv' : (0 : ℝ) ≤ (v : ℝ) := by exact_mod_cast hv
  have hs : 0 ≤ Real.sqrt (v : ℝ) := Real.sqrt_nonneg _
  have hsq : Real.sqrt (v : ℝ) ^ 2 = (v : ℝ) := Real.sq_sqrt hv'
  have h20 : (20 : ℝ) = Real.sqrt 400 := by
    rw [show (400 : ℝ) = 20 ^ 2 by norm_num, Real.sqrt_sq (by norm_num)]
  rw [exceedsAdaptiveThreshold]
  split
  · rename_i h400
    have hs20 : Real.sqrt (v : ℝ) ≤ 20 := by
      rw [h20]
      exact Real.sqrt_le_sqrt (by exact_mod_cast h400)
    have hmin : min 1 (Real.sqrt (v : ℝ) / 20) = Real.sqrt (v : ℝ) / 20 :=
      min_eq_right (by linarith)
    rw [hmin, Bool.and_eq_true, decide_eq_true_eq, decide_eq_true_eq]
    have key := mul_sqrt_lt_iff (3/2) ((x : ℝ) - m - v / 20) (v : ℝ) (by norm_num) hv'
    constructor
    · rintro ⟨h1, h2⟩
      have h1' : (0 : ℝ) < (x : ℝ) - m - v / 20 := by exact_mod_cast h1
      have h2' := (Rat.cast_lt (K := ℝ)).mpr h2
      push_cast at h2'
      have hlt := key.mpr ⟨h1', by nlinarith [h2']⟩
      nlinarith [hlt, hsq]
    · intro h
      have hlt : (3/2 : ℝ) * Real.sqrt (v : ℝ) < (x : ℝ) - m - v / 20 := by
        nlinarith [h, hsq]
      have hk := key.mp hlt
      constructor
      · exact_mod_cast hk.1
      · rw [← Rat.cast_lt (K := ℝ)]
        push_cast
        nlinarith [hk.2]
  · rename_i h400
    have hs20 : (20 : ℝ) < Real.sqrt (v : ℝ) := by
      rw [h20]
      exact Real.sqrt_lt_sqrt (by norm_num) (by exact_mod_cast not_le.mp h400)
    have hmin : min 1 (Real.sqrt (v : ℝ) / 20) = 1 := min_eq_left (by linarith)
    rw [hmin, Bool.and_eq_true, decide_eq_true_eq, decide_eq_true_eq]
    have key := mul_sqrt_lt_iff (5/2) ((x : ℝ) - m) (v : ℝ) (by norm_num) hv'
    constructor
    · rintro ⟨h1, h2⟩
      have h1' : (0 : ℝ) < (x : ℝ) - m := by exact_mod_cast h1
      have h2' := (Rat.cast_lt (K := ℝ)).mpr h2
      push_cast at h2'
      have hlt := key.mpr ⟨h1', by nlinarith [h2']⟩
      nlinarith [hlt]
    · intro h
      have hlt : (5/2 : ℝ) * Real.sqrt (v : ℝ) < (x : ℝ) - m := by nlinarith [h]
      have hk := key.mp hlt
      constructor
      · exact_mod_cast hk.1
      · rw [← Rat.cast_lt (K := ℝ)]
        push_cast
        nlinarith [hk.2]

/-! ### Baseline removal reads fractional indices (claim C7) -/

set_option maxRecDepth 100000 in
unseal Rat.add Rat.mul Rat.inv Rat.sub Rat.ofScientific in
/-- C7, the code bug evaluated: on a 100-sample channel history — the very
length the Oxygenation Estimator conditions (`slice(-100)`) once 100 samples
have accumulated — `removeBaselineWander` uses `windowSize = 25`, its second
flanking loop starts at the fractional index `i + 25/3`, every read there is
`undefined`, and the first interior output sample (index 25) is NaN
(`none`).  The NaN propagates through normalization and the pulsatility
indices, so `enhancedOxygenEstimation` returns NaN instead of the claimed
rounded weighted average clamped to [85, 100] (or 97). -/
theorem removeBaselineWander_nan :
    min 50 (rampSignal100.length / 4) = 25 ∧
    (removeBaselineWander rampSignal100).getD 25 (some 0) = none := by
  constructor
  · decide
  · decide

end SustainLabs
